/-
  Verification of the share-sniffer concurrent link-checking engine.

  Shallow embedding of the Go sources:
  * `Utils`  — internal/utils/result.go and internal/utils/text.go
  * `Core`   — internal/core/adapter.go, the checker registry, and the
               classification logic of the xunlei (automation-based) checker
  * `WP`     — internal/workerpool/workerpool.go: the channel lifecycle
               (Submit/Stop/Wait) and a labelled small-step semantics of the
               worker loop with the heavy-task semaphore
  * `HttpC`  — internal/http/client.go: DoWithRetry

  Go strings are modelled at rune (character) granularity: a Go `string`
  becomes a Lean `String` (a list of characters).  Go channels are modelled
  by their buffer plus a closed flag; a send on a closed channel and a close
  of a closed channel are runtime panics, modelled as `Except` errors.
-/
import Mathlib

namespace ShareSniffer

namespace Utils

/-! ### internal/utils/result.go -/

/-- Go `type ErrorType uint32`.  The codes are small, so `Nat` is exact. -/
abbrev ErrorType := Nat

def Valid : ErrorType := 0
def Unknown : ErrorType := 10
def Invalid : ErrorType := 11
def Malformed : ErrorType := 12
def Timeout : ErrorType := 13
def Fatal : ErrorType := 14
def Stop : ErrorType := 15
def Done : ErrorType := 16

def MsgMaxLen : Nat := 48

structure ResultData where
  URL : String
  Name : String
  Elapsed : Int
  deriving DecidableEq, Repr

structure Result where
  Error : ErrorType
  Msg : String
  Data : ResultData
  deriving DecidableEq, Repr

/-! ### internal/utils/text.go -/

/-- Go `strings.Replace(s, pat, "", 1)`: remove the first occurrence of
`pat` from `s` (no change when `pat` does not occur). -/
def replaceOnce : List Char → List Char → List Char
  | [], _ => []
  | c :: rest, pat =>
    if pat.isPrefixOf (c :: rest) then (c :: rest).drop pat.length
    else c :: replaceOnce rest pat

/-- `Substr` from internal/utils/text.go.  The Go loop walks the runes of
`str`; `charCount` ends at `min (rune count) length` and `endIndex` is the
byte offset after rune `length - 1`, so the function returns `str`
unchanged when it has fewer than `length` runes and otherwise the first
`length` runes followed by `"..."`.  (`prefix` is a Lean keyword, hence the
parameter name `pre`.) -/
def Substr (str : String) (length : Nat) (pre : String) : String :=
  let s := if 0 < pre.length then String.mk (replaceOnce str.data pre.data) else str
  if s.length < length then s
  else String.mk (s.data.take length ++ "...".data)

def ErrorToMsg (error : ErrorType) : String :=
  if error = Valid then "valid"
  else if error = Unknown then "unknown"
  else if error = Invalid then "invalid"
  else if error = Malformed then "malformed"
  else if error = Timeout then "timeout"
  else "self defined"

def ErrorMalformed (url : String) (msg : String) : Result :=
  { Error := Malformed
    Msg := if msg = "" then ErrorToMsg Malformed else Substr msg MsgMaxLen ""
    Data := { URL := url, Name := "", Elapsed := 0 } }

def ErrorTimeout : Result :=
  { Error := Timeout
    Msg := ErrorToMsg Timeout
    Data := { URL := "", Name := "", Elapsed := 0 } }

def ErrorUnknown (msg : String) : Result :=
  { Error := Unknown
    Msg := if msg = "" then ErrorToMsg Unknown else Substr msg MsgMaxLen ""
    Data := { URL := "", Name := "", Elapsed := 0 } }

def ErrorValid (name : String) : Result :=
  { Error := Valid
    Msg := ErrorToMsg Valid
    Data := { URL := "", Name := name, Elapsed := 0 } }

def ErrorInvalid (msg : String) : Result :=
  { Error := Invalid
    Msg := if msg = "" then ErrorToMsg Invalid else Substr msg MsgMaxLen ""
    Data := { URL := "", Name := "", Elapsed := 0 } }

def ErrorFatal (msg : String) : Result :=
  { Error := Fatal
    Msg := if msg = "" then ErrorToMsg Unknown else Substr msg MsgMaxLen ""
    Data := { URL := "", Name := "", Elapsed := 0 } }

end Utils

/-- Go `strings.HasPrefix(s, pre)`, at character granularity (a byte-level
prefix of valid UTF-8 strings is exactly a character-level prefix). -/
def goHasPrefix (pre s : String) : Bool :=
  pre.data.isPrefixOf s.data

/-- Go `strings.Contains(s, sub)`: `sub` occurs somewhere inside `s`. -/
def goHasInfix : List Char → List Char → Bool
  | [], pat => pat.isEmpty
  | c :: rest, pat => pat.isPrefixOf (c :: rest) || goHasInfix rest pat

def goContains (s sub : String) : Bool :=
  goHasInfix s.data sub.data

namespace Core

/-! ### the checker registry (checker.go) and internal/core/adapter.go -/

/-- The context handed to a strategy.  Only the facts the embedded code
observes are kept: whether it is cancelled and whether its deadline has
been exceeded. -/
structure GoContext where
  cancelled : Bool
  deadlineExceeded : Bool
  deriving DecidableEq, Repr

/-- The `LinkChecker` interface: `Check` plus the owned URL prefixes. -/
structure LinkChecker where
  Check : GoContext → String → Utils.Result
  GetPrefix : List String

/-- The registry built by `RegisterChecker`: one entry per registered
prefix.  Go iterates the `checkers` map in an unspecified order; the list
fixes one order, and the claims proved below do not depend on it (the
no-match case is order independent, and the dispatch claim is stated
relative to the checker `GetChecker` returns). -/
abbrev Checkers := List (String × LinkChecker)

/-- `GetChecker`: scan the registered prefixes and return the first checker
whose prefix starts the URL, or none. -/
def GetChecker (checkers : Checkers) (urlStr : String) : Option LinkChecker :=
  match checkers.find? (fun pc => goHasPrefix pc.1 urlStr) with
  | some pc => some pc.2
  | none => none

/-- Go `strings.TrimSpace`: drop leading and trailing whitespace. -/
def trimSpace (s : String) : String :=
  String.mk (((s.data.dropWhile Char.isWhitespace).reverse.dropWhile
      Char.isWhitespace).reverse)

/-- `Adapter` from internal/core/adapter.go.  `elapsedMs` stands for
`time.Since(startTime).Milliseconds()`: the measured wall-clock duration of
the `checker.Check` call, non-negative because Go's monotonic clock never
runs backwards; it enters the result as an `Int` exactly as the source
stores an `int64`. -/
def Adapter (checkers : Checkers) (elapsedMs : Nat) (ctx : GoContext)
    (urlStr : String) : Utils.Result :=
  if urlStr = "" then Utils.ErrorMalformed urlStr "链接不能为空"
  else
    match GetChecker checkers urlStr with
    | none => Utils.ErrorMalformed urlStr "链接尚未支持"
    | some checker =>
      let result := checker.Check ctx urlStr
      { result with
          Data := { result.Data with
                      URL := urlStr
                      Elapsed := (elapsedMs : Int)
                      Name := trimSpace result.Data.Name } }

/-- A sample API-based strategy used to instantiate the dispatch theorems
on concrete inputs. -/
def demoChecker : LinkChecker where
  Check := fun _ _ => Utils.ErrorValid "  movie  "
  GetPrefix := ["https://demo/"]

end Core

namespace WP

/-! ### internal/workerpool/workerpool.go — channel lifecycle

A Go channel is modelled by its buffer, its capacity and a closed flag.
Two operations of the source touch the closed flags:

* `Submit` runs `select { case q.taskQueue <- task: ...; default: ... }`.
  When the task queue has been closed, the send case is ready and executing
  it is the runtime panic "send on closed channel" (the `default` branch is
  taken only when no other case is ready).
* `Stop` and `Wait` both run `close(q.taskQueue)` … `close(q.resultChan)`
  unconditionally; `close` of an already-closed channel is the runtime
  panic "close of closed channel".

Panics of these operations are modelled as `Except.error`.  `wg.Wait()`
only blocks, so it does not appear in this sequential model; the workers
themselves are modelled by the step relation further below. -/

/-- `Task` from workerpool.go.  The unit-of-work closure `Func` is not
consulted by the lifecycle operations; the step semantics below models its
execution (including a recovered panic) abstractly. -/
structure Task where
  URL : String
  deriving DecidableEq, Repr

inductive GoPanic where
  | sendOnClosedChan
  | closeOfClosedChan
  deriving DecidableEq, Repr

/-- The channel state of a `WorkerPool`: the task queue, the result
channel, and the cancellable run context.  `delivered`, `dropped` and
`submitted` are ghost counters read off by the invariants; `ws` is the
status of each worker goroutine (used by the step semantics). -/
inductive WStatus where
  | idle
  | got (u : String)
  | holding (u : String)
  | runHeavy (u : String)
  | postHeavy
  | runNormal (u : String)
  | sending
  | exited
  deriving DecidableEq, Repr

structure Pool where
  queue : List Task
  qcap : Nat
  qclosed : Bool
  resBuf : Nat
  rcap : Nat
  rclosed : Bool
  cancelled : Bool
  sem : Nat
  ws : List WStatus
  delivered : Nat
  dropped : Nat
  submitted : Nat
  deriving DecidableEq, Repr

/-- `Submit`: non-blocking select send on the task queue.  Returns whether
the task was accepted; sending on a closed queue panics. -/
def Submit (s : Pool) (t : Task) : Except GoPanic (Bool × Pool) :=
  if s.qclosed then .error .sendOnClosedChan
  else if s.queue.length < s.qcap then
    .ok (true, { s with queue := s.queue ++ [t], submitted := s.submitted + 1 })
  else .ok (false, s)

/-- `close(ch)` on a channel with the given closed flag. -/
def closeChan (closed : Bool) : Except GoPanic Unit :=
  if closed then .error .closeOfClosedChan else .ok ()

/-- `Stop`: cancel the run context, close the task queue, wait for the
workers (blocking only), close the result channel. -/
def Stop (s : Pool) : Except GoPanic Pool := do
  let s := { s with cancelled := true }
  let _ ← closeChan s.qclosed
  let s := { s with qclosed := true }
  let _ ← closeChan s.rclosed
  .ok { s with rclosed := true }

/-- `Wait`: close the task queue, wait for the workers to drain it
(blocking only), close the result channel. -/
def Wait (s : Pool) : Except GoPanic Pool := do
  let _ ← closeChan s.qclosed
  let s := { s with qclosed := true }
  let _ ← closeChan s.rclosed
  .ok { s with rclosed := true }

/-! ### internal/workerpool/workerpool.go — the worker loop as a labelled
small-step semantics

Each worker goroutine runs the loop of `worker(id)`: select on
{run context cancelled → exit, task queue closed and empty → exit,
task available → claim it}; classify the claimed URL against the
configured xunlei and 139-yun (yd) prefixes; if heavy, block acquiring a
slot of the capacity-bounded `longTaskSemaphore` before running the task
body and receive it back after the body returns; `executeTask` recovers
panics inside the body, so the body always returns (the `panicked` label
argument records which happened); finally select between sending the
result on the bounded result channel and dropping it once the run context
is cancelled.  The semaphore channel is modelled by the number `sem` of
held slots: a send blocks unless `sem < maxLong`, a receive decrements. -/


/-- The configuration injected into `NewWorkerPool`: worker count, the
heavy-task ceiling `config.GetLongMaxConcurrent()`, and the heavy URL
prefixes `config.GetSupportedXunlei()` / `config.GetSupportedYd()`.  The
queue capacities are the constants 10000 and 100 of the source. -/
structure Cfg where
  workers : Nat
  maxLong : Nat
  xunleiPre : List String
  ydPre : List String

/-- The heavy-task classification of `worker`: the URL starts with a
supported xunlei prefix or, failing that, with a supported yd prefix. -/
def isLongTask (cfg : Cfg) (u : String) : Bool :=
  cfg.xunleiPre.any (fun p => goHasPrefix p u) ||
    cfg.ydPre.any (fun p => goHasPrefix p u)

/-- The pool state right after `NewWorkerPool` plus `Start()`. -/
def init (cfg : Cfg) : Pool :=
  { queue := [], qcap := 10000, qclosed := false
    resBuf := 0, rcap := 100, rclosed := false
    cancelled := false, sem := 0
    ws := List.replicate cfg.workers .idle
    delivered := 0, dropped := 0, submitted := 0 }

inductive Label where
  | submit (t : Task)
  | closeQ
  | cancel
  | exitCancel (i : Nat)
  | exitClosed (i : Nat)
  | take (i : Nat)
  | startNormal (i : Nat)
  | acquire (i : Nat)
  | beginHeavy (i : Nat)
  | finishHeavy (i : Nat) (panicked : Bool)
  | release (i : Nat)
  | finishNormal (i : Nat) (panicked : Bool)
  | send (i : Nat)
  | dropResult (i : Nat)
  | recv
  deriving DecidableEq, Repr

/-- One interleaved step of the pool, its workers and its environment.
`delivered`, `dropped` and `submitted` are ghost counters: the number of
results ever sent on `resultChan`, of results dropped by the
cancellation branch of the send select, and of tasks accepted by
`Submit`. -/
inductive Step (cfg : Cfg) : Pool → Label → Pool → Prop where
  | submit (s : Pool) (t : Task) :
      s.qclosed = false → s.queue.length < s.qcap →
      Step cfg s (.submit t)
        { s with queue := s.queue ++ [t], submitted := s.submitted + 1 }
  | closeQ (s : Pool) :
      s.qclosed = false →
      Step cfg s .closeQ { s with qclosed := true }
  | cancel (s : Pool) :
      Step cfg s .cancel { s with cancelled := true }
  | exitCancel (s : Pool) (i : Nat) :
      s.ws[i]? = some .idle → s.cancelled = true →
      Step cfg s (.exitCancel i) { s with ws := s.ws.set i .exited }
  | exitClosed (s : Pool) (i : Nat) :
      s.ws[i]? = some .idle → s.qclosed = true → s.queue = [] →
      Step cfg s (.exitClosed i) { s with ws := s.ws.set i .exited }
  | take (s : Pool) (i : Nat) (t : Task) (rest : List Task) :
      s.ws[i]? = some .idle → s.queue = t :: rest →
      Step cfg s (.take i)
        { s with ws := s.ws.set i (.got t.URL), queue := rest }
  | startNormal (s : Pool) (i : Nat) (u : String) :
      s.ws[i]? = some (.got u) → isLongTask cfg u = false →
      Step cfg s (.startNormal i) { s with ws := s.ws.set i (.runNormal u) }
  | acquire (s : Pool) (i : Nat) (u : String) :
      s.ws[i]? = some (.got u) → isLongTask cfg u = true →
      s.sem < cfg.maxLong →
      Step cfg s (.acquire i)
        { s with sem := s.sem + 1, ws := s.ws.set i (.holding u) }
  | beginHeavy (s : Pool) (i : Nat) (u : String) :
      s.ws[i]? = some (.holding u) →
      Step cfg s (.beginHeavy i) { s with ws := s.ws.set i (.runHeavy u) }
  | finishHeavy (s : Pool) (i : Nat) (u : String) (panicked : Bool) :
      s.ws[i]? = some (.runHeavy u) →
      Step cfg s (.finishHeavy i panicked) { s with ws := s.ws.set i .postHeavy }
  | release (s : Pool) (i : Nat) :
      s.ws[i]? = some .postHeavy →
      Step cfg s (.release i) { s with sem := s.sem - 1, ws := s.ws.set i .sending }
  | finishNormal (s : Pool) (i : Nat) (u : String) (panicked : Bool) :
      s.ws[i]? = some (.runNormal u) →
      Step cfg s (.finishNormal i panicked) { s with ws := s.ws.set i .sending }
  | send (s : Pool) (i : Nat) :
      s.ws[i]? = some .sending → s.resBuf < s.rcap →
      Step cfg s (.send i)
        { s with ws := s.ws.set i .idle, resBuf := s.resBuf + 1,
                 delivered := s.delivered + 1 }
  | dropResult (s : Pool) (i : Nat) :
      s.ws[i]? = some .sending → s.cancelled = true →
      Step cfg s (.dropResult i)
        { s with ws := s.ws.set i .idle, dropped := s.dropped + 1 }
  | recv (s : Pool) :
      0 < s.resBuf →
      Step cfg s .recv { s with resBuf := s.resBuf - 1 }

/-- Some step happened. -/
def StepAny (cfg : Cfg) (s s2 : Pool) : Prop := ∃ l, Step cfg s l s2

/-- Some step other than cancellation happened (the `Wait()` regime). -/
def StepNC (cfg : Cfg) (s s2 : Pool) : Prop :=
  ∃ l, l ≠ Label.cancel ∧ Step cfg s l s2

def Reaches (cfg : Cfg) : Pool → Pool → Prop :=
  Relation.ReflTransGen (StepAny cfg)

def ReachesNC (cfg : Cfg) : Pool → Pool → Prop :=
  Relation.ReflTransGen (StepNC cfg)

/-- Worker statuses that hold a semaphore slot: between the semaphore send
and the matching receive. -/
def isHeavyHolder : WStatus → Bool
  | .holding _ => true
  | .runHeavy _ => true
  | .postHeavy => true
  | _ => false

/-- Worker statuses whose heavy task body is executing right now. -/
def isHeavyRunning : WStatus → Bool
  | .runHeavy _ => true
  | _ => false

/-- Worker statuses that have claimed a task whose result is not yet sent
or dropped. -/
def isBusy : WStatus → Bool
  | .idle => false
  | .exited => false
  | _ => true

/-- The number of heavy task bodies executing concurrently. -/
def heavyRunning (s : Pool) : Nat := s.ws.countP isHeavyRunning

/-- The inductive invariant: the worker list keeps its size, the semaphore
counts exactly the slot-holding workers and respects its capacity, and
every accepted task is queued, claimed by a worker, delivered, or
dropped. -/
def Inv (cfg : Cfg) (s : Pool) : Prop :=
  s.ws.length = cfg.workers ∧
  s.sem = s.ws.countP isHeavyHolder ∧
  s.sem ≤ cfg.maxLong ∧
  s.submitted = s.queue.length + s.ws.countP isBusy + s.delivered + s.dropped

/-- The extra invariant of cancellation-free (`Wait()`-style) executions:
nothing is ever dropped, and once some worker has exited the queue is
closed and empty for good. -/
def InvNC (cfg : Cfg) (s : Pool) : Prop :=
  Inv cfg s ∧ s.cancelled = false ∧ s.dropped = 0 ∧
  ((∃ w ∈ s.ws, w = WStatus.exited) → s.qclosed = true ∧ s.queue = [])

/-- A concrete single-worker configuration with heavy ceiling 1, used to
run the invariant theorems on explicit traces. -/
def demoCfg : Cfg where
  workers := 1
  maxLong := 1
  xunleiPre := ["https://pan.xunlei.com/"]
  ydPre := ["https://yun.139.com/"]

end WP

namespace HttpC

/-! ### internal/http/client.go — DoWithRetry

The retry loop runs attempts `0 .. maxRetries`.  Before each retry
(attempt > 0) it waits `GetRetryInterval() * attempt`, aborting with
`ctx.Err()` if the context is cancelled during the wait.  A response with
a 5xx status is closed, recorded as a response error and retried; any
other response is returned at once.  A transport error is recorded, and
the loop returns `ctx.Err()` if the context is already cancelled,
otherwise retries.  After exhausting the attempts the last error is
classified: a `net.Error` with `Timeout()` becomes a timeout error, any
other `net.Error` a network error, everything else (including the
response-error wrapper, which is not a `net.Error`) a request error.

The context is modelled as a Boolean function of an observation counter:
the code observes cancellation once during each backoff wait and once
after each failed transport attempt, in program order; `ctx t` tells
whether the context was cancelled by observation `t`.  The transport is a
function from the attempt number to that attempt's outcome.  `ri` is
`config.GetRetryInterval()` (a non-negative duration). -/

inductive DoOutcome where
  | resp (status : Nat)
  | fail (isNet : Bool) (isTimeout : Bool)
  deriving DecidableEq, Repr

inductive LastErr where
  | respErr (status : Nat)
  | transport (isNet : Bool) (isTimeout : Bool)
  deriving DecidableEq, Repr

inductive RetryReturn where
  | success (attempt : Nat) (status : Nat)
  | ctxCancelled
  | timeoutErr
  | networkErr
  | requestErr
  deriving DecidableEq, Repr

/-- The classification of the last recorded error after all retries
failed. -/
def classify : Option LastErr → RetryReturn
  | some (.transport true true) => .timeoutErr
  | some (.transport true false) => .networkErr
  | _ => .requestErr

/-- The observable trace of one `DoWithRetry` call: its return value, the
number of transport attempts performed, and the backoff delays waited. -/
structure DoTrace where
  ret : RetryReturn
  attempts : Nat
  waits : List Nat
  deriving DecidableEq, Repr

def doLoop (ri : Nat) (ctx : Nat → Bool) (tr : Nat → DoOutcome) :
    Nat → Nat → Nat → Option LastErr → DoTrace
  | 0, _a, _t, le => ⟨classify le, 0, []⟩
  | fuel+1, a, t, _le =>
    if (a != 0) && ctx t then ⟨.ctxCancelled, 0, []⟩
    else
      let ws : List Nat := if a != 0 then [ri * a] else []
      let t1 : Nat := if a != 0 then t + 1 else t
      match tr a with
      | .resp st =>
        if 500 ≤ st ∧ st < 600 then
          let r := doLoop ri ctx tr fuel (a+1) t1 (some (.respErr st))
          ⟨r.ret, r.attempts + 1, ws ++ r.waits⟩
        else ⟨.success a st, 1, ws⟩
      | .fail n tmo =>
        if ctx t1 then ⟨.ctxCancelled, 1, ws⟩
        else
          let r := doLoop ri ctx tr fuel (a+1) (t1+1) (some (.transport n tmo))
          ⟨r.ret, r.attempts + 1, ws ++ r.waits⟩

/-- `DoWithRetry(ctx, req, maxRetries)`: a non-positive `maxRetries` is
replaced by `config.GetRetryCount()`. -/
def DoWithRetry (cfgRetryCount : Nat) (ri : Nat) (ctx : Nat → Bool)
    (tr : Nat → DoOutcome) (maxRetries : Int) : DoTrace :=
  let mr : Nat := if maxRetries ≤ 0 then cfgRetryCount else maxRetries.toNat
  doLoop ri ctx tr (mr + 1) 0 0 none

/-- An attempt the loop treats as failed: a 5xx response or a transport
error. -/
def failsAttempt (o : DoOutcome) : Prop :=
  (∃ st, o = .resp st ∧ 500 ≤ st ∧ st < 600) ∨ (∃ n tmo, o = .fail n tmo)

/-- A concrete transport failing twice then succeeding, for the witness. -/
def trDemo : Nat → DoOutcome :=
  fun j => if j < 2 then .fail true false else .resp 200

end HttpC

namespace Core

/-! ### xunlei.go — the classification logic of `checkXunlei`

`checkXunlei` validates the URL, drives a headless browser in two stages,
and then classifies.  Stage one yields an error `err1` and the captured
`pageContent`; whenever some content was captured, a first classification
block runs (deletion, then existence/expiry, then the two-keyword
violation test).  Stage two — which runs only when stage one succeeded
with content, and whose own errors are reset to nil — extracts
`folderName`.  At the final error check, the remaining error is therefore
exactly `err1`; with the passed-in context's deadline exceeded it becomes
Timeout, otherwise Fatal with the error text.  The classification below
takes the browser outputs (`err1`, `pageContent`, `folderName`) and the
deadline flag as inputs and is a line-by-line translation of the rest.
Go lowercases with `strings.ToLower` and the model with `Char.toLower`;
these agree on ASCII and on CJK text, which has no case. -/

def violationKeywords : List String := ["涉及侵权", "色情", "反动", "低俗", "无法访问"]

def deletedKeywords : List String := ["该分享已被作者删除", "分享已删除", "share has been deleted"]

def expiredKeywords : List String := ["分享不存在", "已过期", "页面不存在", "not found", "404"]

def lowerStr (s : String) : String := String.mk (s.data.map Char.toLower)

/-- How many keywords of the list occur (lowercased) in the lowercased
content — each distinct keyword is counted once. -/
def keywordCount (lower : String) (kws : List String) : Nat :=
  kws.countP (fun kw => goContains lower (lowerStr kw))

def violationMsg : String := "该分享内容可能涉及违规信息，无法访问！"

/-- The folder-name cleanup at the end of `checkXunlei` (Go indexes bytes
here; the model uses characters — no claim depends on this branch). -/
def dedupName (fn0 : String) : String :=
  let fn := trimSpace fn0
  if 10 < fn.length ∧ goHasInfix fn.data (fn.data.take (fn.length / 2)) then
    String.mk (fn.data.take (fn.length / 2))
  else fn

/-- The classification after the stage-one block fell through: the error
check, then the main keyword classification of `checkXunlei`. -/
def checkXunleiMain (deadlineExceeded : Bool) (err1 : Option String)
    (pageContent folderName : String) : Utils.Result :=
  match err1 with
  | some e =>
    if deadlineExceeded then Utils.ErrorTimeout
    else Utils.ErrorFatal ("失败: " ++ e)
  | none =>
    if 1 ≤ keywordCount (lowerStr pageContent) deletedKeywords then
      Utils.ErrorInvalid "该分享已被作者删除"
    else if 2 ≤ keywordCount (lowerStr pageContent) violationKeywords then
      Utils.ErrorInvalid violationMsg
    else if goContains (lowerStr pageContent) "暂无文件" then
      Utils.ErrorInvalid "暂无文件"
    else if 2 ≤ keywordCount (lowerStr pageContent) expiredKeywords then
      Utils.ErrorInvalid "分享不存在或已过期"
    else if goContains pageContent "statusCode:404" ||
        goContains pageContent "path:\"\\u002Fs" then
      Utils.ErrorInvalid "分享不存在或已过期"
    else if folderName ≠ "" then
      Utils.ErrorValid (dedupName folderName)
    else
      Utils.ErrorInvalid "无法获分享信息"

/-- The full classification of `checkXunlei` on the browser outputs: the
stage-one block (which runs whenever some page content was captured, even
when stage one also returned an error), then `checkXunleiMain`. -/
def checkXunleiClassify (deadlineExceeded : Bool) (err1 : Option String)
    (pageContent folderName : String) : Utils.Result :=
  if pageContent ≠ "" then
    if goContains (lowerStr pageContent) "作者删除" ||
        goContains (lowerStr pageContent) "分享已删除" then
      Utils.ErrorInvalid "该分享已被作者删除"
    else if goContains (lowerStr pageContent) "分享不存在" ||
        goContains (lowerStr pageContent) "已过期" ||
        goContains (lowerStr pageContent) "页面不存在" then
      Utils.ErrorInvalid "分享不存在或已过期"
    else if 2 ≤ keywordCount (lowerStr pageContent) violationKeywords then
      Utils.ErrorInvalid violationMsg
    else checkXunleiMain deadlineExceeded err1 pageContent folderName
  else checkXunleiMain deadlineExceeded err1 pageContent folderName

end Core


/-! ## Shared lemmas about `Substr` -/

namespace Utils

theorem substr_no_pre (s : String) (n : Nat) :
    Substr s n "" =
      if s.length < n then s else String.mk (s.data.take n ++ "...".data) := by
  unfold Substr
  have h0 : (if 0 < ("" : String).length then
      String.mk (replaceOnce s.data ("" : String).data) else s) = s :=
    if_neg (by decide)
  rw [h0]

theorem substr_no_pre_of_lt (s : String) (n : Nat) (h : s.length < n) :
    Substr s n "" = s := by
  rw [substr_no_pre, if_pos h]

theorem substr_no_pre_of_ge (s : String) (n : Nat) (h : n ≤ s.length) :
    Substr s n "" = String.mk (s.data.take n ++ "...".data) := by
  rw [substr_no_pre, if_neg (by omega)]

theorem substr_no_pre_length_le (s : String) (n : Nat) :
    (Substr s n "").length ≤ n + 3 := by
  rcases Nat.lt_or_ge s.length n with h | h
  · rw [substr_no_pre_of_lt s n h]; omega
  · rw [substr_no_pre_of_ge s n h]
    show (s.data.take n ++ "...".data).length ≤ n + 3
    rw [List.length_append, List.length_take]
    have h3 : ("..." : String).data.length = 3 := by decide
    omega

end Utils

/-! ## C6: error-result messages are truncated to 48 characters -/

/-- C6.  For every input message, the `Msg` field of `ErrorMalformed` is at
most 48 characters plus the 3-character ellipsis marker, and a message of
at least 48 characters (such as a 200-character one) is truncated to its
first 48 characters followed by `"..."`. -/
theorem errorMalformed_msg_truncated (url msg : String) :
    (Utils.ErrorMalformed url msg).Msg.length ≤ Utils.MsgMaxLen + 3 ∧
    (Utils.MsgMaxLen ≤ msg.length →
      (Utils.ErrorMalformed url msg).Msg =
        String.mk (msg.data.take Utils.MsgMaxLen ++ "...".data)) := by
  have hMsg : (Utils.ErrorMalformed url msg).Msg =
      if msg = "" then Utils.ErrorToMsg Utils.Malformed
      else Utils.Substr msg Utils.MsgMaxLen "" := rfl
  by_cases h : msg = ""
  · subst h
    rw [hMsg, if_pos rfl]
    exact ⟨by decide, fun hlen => absurd hlen (by decide)⟩
  · rw [hMsg, if_neg h]
    exact ⟨Utils.substr_no_pre_length_le msg _,
      fun hlen => Utils.substr_no_pre_of_ge msg _ hlen⟩

set_option maxRecDepth 8000 in
/-- Witness for C6 at a concrete 200-character message. -/
theorem errorMalformed_msg_truncated_witness :
    (Utils.ErrorMalformed "u" (String.mk (List.replicate 200 'a'))).Msg.length ≤ 51 ∧
    (Utils.ErrorMalformed "u" (String.mk (List.replicate 200 'a'))).Msg =
      String.mk (List.replicate 48 'a' ++ "...".data) := by
  have h := errorMalformed_msg_truncated "u" (String.mk (List.replicate 200 'a'))
  refine ⟨h.1, ?_⟩
  rw [h.2 (by decide)]
  decide

/-! ## C9: boundary behaviour of `Substr` at exactly 48 characters -/

/-- C9.  `Substr s 48 ""` appends `"..."` to a 48-character string even
though nothing was removed, while any string of at most 47 characters is
returned unchanged. -/
theorem substr_boundary_48 (s : String) :
    (s.length = 48 → Utils.Substr s 48 "" = s ++ "...") ∧
    (s.length ≤ 47 → Utils.Substr s 48 "" = s) := by
  obtain ⟨l⟩ := s
  have hdata : (String.mk l).length = l.length := rfl
  constructor
  · intro h48
    rw [Utils.substr_no_pre_of_ge _ 48 (by omega)]
    have htake : l.take 48 = l := List.take_of_length_le (by rw [hdata] at h48; omega)
    show String.mk (l.take 48 ++ "...".data) = String.mk l ++ "..."
    rw [htake]
    rfl
  · intro h47
    exact Utils.substr_no_pre_of_lt _ _ (by omega)

set_option maxRecDepth 4000 in
/-- Witness for C9 at a concrete 48-character string and a short string. -/
theorem substr_boundary_48_witness :
    Utils.Substr (String.mk (List.replicate 48 'x')) 48 "" =
      String.mk (List.replicate 48 'x') ++ "..." ∧
    Utils.Substr "hello" 48 "" = "hello" := by
  constructor
  · exact (substr_boundary_48 (String.mk (List.replicate 48 'x'))).1 (by decide)
  · exact (substr_boundary_48 "hello").2 (by decide)

/-! ## C4: empty and unsupported URLs always yield Malformed -/

/-- C4.  `Adapter` on the empty URL returns a Malformed result whatever the
registry holds, and on any non-empty URL matched by no registered prefix it
returns Malformed with the "unsupported" message, never Fatal.  The
embedding is a total function, so no execution of this code path panics. -/
theorem adapter_empty_and_unsupported
    (checkers : Core.Checkers) (elapsedMs : Nat) (ctx : Core.GoContext) :
    (Core.Adapter checkers elapsedMs ctx "").Error = Utils.Malformed ∧
    (∀ url : String, url ≠ "" →
      (∀ pc ∈ checkers, goHasPrefix pc.1 url = false) →
      (Core.Adapter checkers elapsedMs ctx url).Error = Utils.Malformed ∧
      (Core.Adapter checkers elapsedMs ctx url).Msg = "链接尚未支持" ∧
      (Core.Adapter checkers elapsedMs ctx url).Error ≠ Utils.Fatal) := by
  constructor
  · rfl
  · intro url hne hnomatch
    have hfind : checkers.find? (fun pc => goHasPrefix pc.1 url) = none := by
      rw [List.find?_eq_none]
      intro pc hpc
      simp [hnomatch pc hpc]
    have hget : Core.GetChecker checkers url = none := by
      unfold Core.GetChecker
      rw [hfind]
    unfold Core.Adapter
    rw [if_neg hne, hget]
    refine ⟨rfl, ?_, ?_⟩
    · show (Utils.ErrorMalformed url "链接尚未支持").Msg = "链接尚未支持"
      have hm : (Utils.ErrorMalformed url "链接尚未支持").Msg =
          Utils.Substr "链接尚未支持" Utils.MsgMaxLen "" := by
        show (if ("链接尚未支持" : String) = "" then Utils.ErrorToMsg Utils.Malformed
          else Utils.Substr "链接尚未支持" Utils.MsgMaxLen "") = _
        rw [if_neg (by decide)]
      rw [hm]
      exact Utils.substr_no_pre_of_lt _ _ (by decide)
    · show Utils.Malformed ≠ Utils.Fatal
      decide

/-- Witness for C4 on a concrete one-entry registry and a URL that matches
no registered prefix. -/
theorem adapter_empty_and_unsupported_witness :
    (Core.Adapter [("https://demo/", Core.demoChecker)] 7 ⟨false, false⟩ "").Error
        = Utils.Malformed ∧
    (Core.Adapter [("https://demo/", Core.demoChecker)] 7 ⟨false, false⟩
        "https://other/x").Error = Utils.Malformed ∧
    (Core.Adapter [("https://demo/", Core.demoChecker)] 7 ⟨false, false⟩
        "https://other/x").Msg = "链接尚未支持" := by
  have h := adapter_empty_and_unsupported
    [("https://demo/", Core.demoChecker)] 7 ⟨false, false⟩
  have h2 := h.2 "https://other/x" (by decide) (by
    intro pc hpc
    rw [List.mem_singleton] at hpc
    subst hpc
    decide)
  exact ⟨h.1, h2.1, h2.2.1⟩

/-! ## C5: the adapter owns exactly the URL, Elapsed and Name fields -/

/-- C5.  When a non-empty URL resolves to a registered strategy, `Adapter`
returns that strategy's result with exactly three fields rewritten: the
echoed URL, a non-negative measured elapsed time, and the
whitespace-trimmed resource name; outcome code and message pass through
untouched. -/
theorem adapter_frame_fields
    (checkers : Core.Checkers) (elapsedMs : Nat) (ctx : Core.GoContext)
    (url : String) (c : Core.LinkChecker)
    (hne : url ≠ "") (hc : Core.GetChecker checkers url = some c) :
    Core.Adapter checkers elapsedMs ctx url =
      { Error := (c.Check ctx url).Error
        Msg := (c.Check ctx url).Msg
        Data := { URL := url
                  Name := Core.trimSpace (c.Check ctx url).Data.Name
                  Elapsed := (elapsedMs : Int) } } ∧
    0 ≤ (Core.Adapter checkers elapsedMs ctx url).Data.Elapsed := by
  have hmain : Core.Adapter checkers elapsedMs ctx url =
      { Error := (c.Check ctx url).Error
        Msg := (c.Check ctx url).Msg
        Data := { URL := url
                  Name := Core.trimSpace (c.Check ctx url).Data.Name
                  Elapsed := (elapsedMs : Int) } } := by
    unfold Core.Adapter
    rw [if_neg hne, hc]
  refine ⟨hmain, ?_⟩
  rw [hmain]
  exact Int.natCast_nonneg elapsedMs

/-- Witness for C5: a registry with one strategy, dispatched on a matching
URL; the strategy's outcome and message survive and the three
adapter-owned fields are stamped. -/
theorem adapter_frame_fields_witness :
    Core.Adapter [("https://demo/", Core.demoChecker)] 5 ⟨false, false⟩
        "https://demo/abc" =
      { Error := Utils.Valid
        Msg := "valid"
        Data := { URL := "https://demo/abc", Name := "movie", Elapsed := 5 } } ∧
    0 ≤ (Core.Adapter [("https://demo/", Core.demoChecker)] 5 ⟨false, false⟩
        "https://demo/abc").Data.Elapsed := by
  have h := adapter_frame_fields [("https://demo/", Core.demoChecker)] 5
    ⟨false, false⟩ "https://demo/abc" Core.demoChecker (by decide) rfl
  refine ⟨?_, h.2⟩
  rw [h.1]
  decide

/-! ## C1: Submit after Stop panics (the spec requires a clean rejection) -/

/-- C1 (refuting theorem).  From any pool state whose channels are still
open — in particular any freshly started pool — `Stop()` succeeds, and a
subsequent `Submit(task)` panics with "send on closed channel" for every
task, instead of returning false or rejecting cleanly as the specification
requires: the select's send case on the closed task queue is ready, so the
`default` branch is never taken. -/
theorem submit_after_stop_panics (s : WP.Pool) (t : WP.Task)
    (hq : s.qclosed = false) (hr : s.rclosed = false) :
    ∃ s2 : WP.Pool, WP.Stop s = .ok s2 ∧
      WP.Submit s2 t = .error .sendOnClosedChan := by
  refine ⟨{ s with cancelled := true, qclosed := true, rclosed := true }, ?_, ?_⟩
  · unfold WP.Stop WP.closeChan
    rw [hq, hr]
    rfl
  · unfold WP.Submit
    rfl

/-- Witness for C1 on a concrete open pool. -/
theorem submit_after_stop_panics_witness :
    ∃ s2 : WP.Pool,
      WP.Stop ⟨[], 10000, false, 0, 100, false, false, 0,
          [WP.WStatus.idle], 0, 0, 0⟩ = .ok s2 ∧
      WP.Submit s2 ⟨"https://demo/a"⟩ = .error .sendOnClosedChan :=
  submit_after_stop_panics _ _ rfl rfl

/-! ## C10: teardown is not idempotent -/

/-- C10.  From any pool state with both channels open, `Stop()` succeeds
once, but a second `Stop()`, a `Wait()` after `Stop()`, and a second
`Wait()` after `Wait()` all panic with "close of closed channel", because
both operations unconditionally close the task queue and the results
channel. -/
theorem teardown_not_idempotent (s : WP.Pool)
    (hq : s.qclosed = false) (hr : s.rclosed = false) :
    (∃ s1 : WP.Pool, WP.Stop s = .ok s1 ∧
      WP.Stop s1 = .error .closeOfClosedChan ∧
      WP.Wait s1 = .error .closeOfClosedChan) ∧
    (∃ s2 : WP.Pool, WP.Wait s = .ok s2 ∧
      WP.Wait s2 = .error .closeOfClosedChan ∧
      WP.Stop s2 = .error .closeOfClosedChan) := by
  constructor
  · refine ⟨{ s with cancelled := true, qclosed := true, rclosed := true },
      ?_, rfl, rfl⟩
    unfold WP.Stop WP.closeChan
    rw [hq, hr]
    rfl
  · refine ⟨{ s with qclosed := true, rclosed := true }, ?_, rfl, rfl⟩
    unfold WP.Wait WP.closeChan
    rw [hq, hr]
    rfl

/-- Witness for C10 on a concrete open pool. -/
theorem teardown_not_idempotent_witness :
    (∃ s1 : WP.Pool,
      WP.Stop ⟨[], 10000, false, 0, 100, false, false, 0,
          [WP.WStatus.idle], 0, 0, 0⟩ = .ok s1 ∧
      WP.Stop s1 = .error .closeOfClosedChan ∧
      WP.Wait s1 = .error .closeOfClosedChan) ∧
    (∃ s2 : WP.Pool,
      WP.Wait ⟨[], 10000, false, 0, 100, false, false, 0,
          [WP.WStatus.idle], 0, 0, 0⟩ = .ok s2 ∧
      WP.Wait s2 = .error .closeOfClosedChan ∧
      WP.Stop s2 = .error .closeOfClosedChan) :=
  teardown_not_idempotent _ rfl rfl

/-! ## Invariant lemmas for the worker-pool step semantics -/

namespace WP

theorem countP_set_of_getElem (p : WStatus → Bool) :
    ∀ (l : List WStatus) (i : Nat) (a b : WStatus), l[i]? = some a →
      (l.set i b).countP p + (if p a then 1 else 0) =
        l.countP p + (if p b then 1 else 0) := by
  intro l
  induction l with
  | nil => intro i a b h; simp at h
  | cons x xs ih =>
    intro i a b h
    cases i with
    | zero =>
      rw [List.getElem?_cons_zero] at h
      injection h with h
      subst h
      simp only [List.set_cons_zero, List.countP_cons]
      omega
    | succ n =>
      rw [List.getElem?_cons_succ] at h
      have hrec := ih n a b h
      simp only [List.set_cons_succ, List.countP_cons]
      omega

theorem init_inv (cfg : Cfg) : Inv cfg (init cfg) := by
  unfold Inv init
  refine ⟨by simp, ?_, by simp, ?_⟩
  · symm
    rw [List.countP_eq_zero]
    intro a ha
    rw [List.eq_of_mem_replicate ha]
    decide
  · have hb : (List.replicate cfg.workers WStatus.idle).countP isBusy = 0 := by
      rw [List.countP_eq_zero]
      intro a ha
      rw [List.eq_of_mem_replicate ha]
      decide
    simp [hb]

theorem inv_step (cfg : Cfg) {s s2 : Pool} {l : Label}
    (h : Step cfg s l s2) (hinv : Inv cfg s) : Inv cfg s2 := by
  unfold Inv at hinv ⊢
  obtain ⟨hlen, hsem, hbound, hcount⟩ := hinv
  cases h with
  | submit t hq hlt =>
    refine ⟨hlen, hsem, hbound, ?_⟩
    dsimp only
    rw [List.length_append]
    simp only [List.length_cons, List.length_nil]
    omega
  | closeQ hq =>
    exact ⟨hlen, hsem, hbound, hcount⟩
  | cancel =>
    exact ⟨hlen, hsem, hbound, hcount⟩
  | exitCancel i hget hc =>
    have hh := countP_set_of_getElem isHeavyHolder s.ws i _ WStatus.exited hget
    have hb := countP_set_of_getElem isBusy s.ws i _ WStatus.exited hget
    simp [isHeavyHolder, isBusy] at hh hb
    refine ⟨?_, ?_, hbound, ?_⟩ <;> dsimp only
    · rw [List.length_set]; exact hlen
    · omega
    · omega
  | exitClosed i hget hqc hqe =>
    have hh := countP_set_of_getElem isHeavyHolder s.ws i _ WStatus.exited hget
    have hb := countP_set_of_getElem isBusy s.ws i _ WStatus.exited hget
    simp [isHeavyHolder, isBusy] at hh hb
    refine ⟨?_, ?_, hbound, ?_⟩ <;> dsimp only
    · rw [List.length_set]; exact hlen
    · omega
    · omega
  | take i t rest hget hq2 =>
    have hh := countP_set_of_getElem isHeavyHolder s.ws i _ (WStatus.got t.URL) hget
    have hb := countP_set_of_getElem isBusy s.ws i _ (WStatus.got t.URL) hget
    simp [isHeavyHolder, isBusy] at hh hb
    rw [hq2] at hcount
    simp only [List.length_cons] at hcount
    refine ⟨?_, ?_, hbound, ?_⟩ <;> dsimp only
    · rw [List.length_set]; exact hlen
    · omega
    · omega
  | startNormal i u hget hlong =>
    have hh := countP_set_of_getElem isHeavyHolder s.ws i _ (WStatus.runNormal u) hget
    have hb := countP_set_of_getElem isBusy s.ws i _ (WStatus.runNormal u) hget
    simp [isHeavyHolder, isBusy] at hh hb
    refine ⟨?_, ?_, hbound, ?_⟩ <;> dsimp only
    · rw [List.length_set]; exact hlen
    · omega
    · omega
  | acquire i u hget hlong hlt =>
    have hh := countP_set_of_getElem isHeavyHolder s.ws i _ (WStatus.holding u) hget
    have hb := countP_set_of_getElem isBusy s.ws i _ (WStatus.holding u) hget
    simp [isHeavyHolder, isBusy] at hh hb
    refine ⟨?_, ?_, ?_, ?_⟩ <;> dsimp only
    · rw [List.length_set]; exact hlen
    · omega
    · omega
    · omega
  | beginHeavy i u hget =>
    have hh := countP_set_of_getElem isHeavyHolder s.ws i _ (WStatus.runHeavy u) hget
    have hb := countP_set_of_getElem isBusy s.ws i _ (WStatus.runHeavy u) hget
    simp [isHeavyHolder, isBusy] at hh hb
    refine ⟨?_, ?_, hbound, ?_⟩ <;> dsimp only
    · rw [List.length_set]; exact hlen
    · omega
    · omega
  | finishHeavy i u panicked hget =>
    have hh := countP_set_of_getElem isHeavyHolder s.ws i _ WStatus.postHeavy hget
    have hb := countP_set_of_getElem isBusy s.ws i _ WStatus.postHeavy hget
    simp [isHeavyHolder, isBusy] at hh hb
    refine ⟨?_, ?_, hbound, ?_⟩ <;> dsimp only
    · rw [List.length_set]; exact hlen
    · omega
    · omega
  | release i hget =>
    have hh := countP_set_of_getElem isHeavyHolder s.ws i _ WStatus.sending hget
    have hb := countP_set_of_getElem isBusy s.ws i _ WStatus.sending hget
    simp [isHeavyHolder, isBusy] at hh hb
    refine ⟨?_, ?_, ?_, ?_⟩ <;> dsimp only
    · rw [List.length_set]; exact hlen
    · omega
    · omega
    · omega
  | finishNormal i u panicked hget =>
    have hh := countP_set_of_getElem isHeavyHolder s.ws i _ WStatus.sending hget
    have hb := countP_set_of_getElem isBusy s.ws i _ WStatus.sending hget
    simp [isHeavyHolder, isBusy] at hh hb
    refine ⟨?_, ?_, hbound, ?_⟩ <;> dsimp only
    · rw [List.length_set]; exact hlen
    · omega
    · omega
  | send i hget hlt =>
    have hh := countP_set_of_getElem isHeavyHolder s.ws i _ WStatus.idle hget
    have hb := countP_set_of_getElem isBusy s.ws i _ WStatus.idle hget
    simp [isHeavyHolder, isBusy] at hh hb
    refine ⟨?_, ?_, hbound, ?_⟩ <;> dsimp only
    · rw [List.length_set]; exact hlen
    · omega
    · omega
  | dropResult i hget hc =>
    have hh := countP_set_of_getElem isHeavyHolder s.ws i _ WStatus.idle hget
    have hb := countP_set_of_getElem isBusy s.ws i _ WStatus.idle hget
    simp [isHeavyHolder, isBusy] at hh hb
    refine ⟨?_, ?_, hbound, ?_⟩ <;> dsimp only
    · rw [List.length_set]; exact hlen
    · omega
    · omega
  | recv hlt =>
    exact ⟨hlen, hsem, hbound, hcount⟩

theorem inv_reaches (cfg : Cfg) {s : Pool}
    (h : Reaches cfg (init cfg) s) : Inv cfg s := by
  induction h with
  | refl => exact init_inv cfg
  | tail hab hbc ih =>
    obtain ⟨l, hstep⟩ := hbc
    exact inv_step cfg hstep ih

theorem exited_of_mem_set {ws : List WStatus} {i : Nat} {b : WStatus}
    (hb : b ≠ WStatus.exited)
    (h : ∃ w ∈ ws.set i b, w = WStatus.exited) :
    ∃ w ∈ ws, w = WStatus.exited := by
  obtain ⟨w, hw, hwe⟩ := h
  subst hwe
  rcases List.mem_or_eq_of_mem_set hw with h1 | h1
  · exact ⟨_, h1, rfl⟩
  · exact absurd h1.symm hb

theorem init_invNC (cfg : Cfg) : InvNC cfg (init cfg) := by
  refine ⟨init_inv cfg, rfl, rfl, ?_⟩
  rintro ⟨w, hw, hwe⟩
  have hidle : w = WStatus.idle := List.eq_of_mem_replicate hw
  rw [hidle] at hwe
  exact WStatus.noConfusion hwe

theorem invNC_step (cfg : Cfg) {s s2 : Pool} {l : Label}
    (hl : l ≠ Label.cancel) (h : Step cfg s l s2) (hinv : InvNC cfg s) :
    InvNC cfg s2 := by
  obtain ⟨hi, hcanc, hdrop, hJ⟩ := hinv
  cases h with
  | submit t hq hlt =>
    refine ⟨inv_step cfg (Step.submit s t hq hlt) hi, hcanc, hdrop, ?_⟩
    intro hex
    have hqc := (hJ hex).1
    rw [hq] at hqc
    exact Bool.noConfusion hqc
  | closeQ hq =>
    exact ⟨inv_step cfg (Step.closeQ s hq) hi, hcanc, hdrop,
      fun hex => ⟨rfl, (hJ hex).2⟩⟩
  | cancel =>
    exact absurd rfl hl
  | exitCancel i hget hc =>
    rw [hcanc] at hc
    exact Bool.noConfusion hc
  | exitClosed i hget hqc hqe =>
    exact ⟨inv_step cfg (Step.exitClosed s i hget hqc hqe) hi, hcanc, hdrop,
      fun _ => ⟨hqc, hqe⟩⟩
  | take i t rest hget hq2 =>
    refine ⟨inv_step cfg (Step.take s i t rest hget hq2) hi, hcanc, hdrop, ?_⟩
    intro hex
    have hqe := (hJ (exited_of_mem_set (fun hc => WStatus.noConfusion hc) hex)).2
    rw [hq2] at hqe
    exact List.noConfusion hqe
  | startNormal i u hget hlong =>
    exact ⟨inv_step cfg (Step.startNormal s i u hget hlong) hi, hcanc, hdrop,
      fun hex => hJ (exited_of_mem_set (fun hc => WStatus.noConfusion hc) hex)⟩
  | acquire i u hget hlong hlt =>
    exact ⟨inv_step cfg (Step.acquire s i u hget hlong hlt) hi, hcanc, hdrop,
      fun hex => hJ (exited_of_mem_set (fun hc => WStatus.noConfusion hc) hex)⟩
  | beginHeavy i u hget =>
    exact ⟨inv_step cfg (Step.beginHeavy s i u hget) hi, hcanc, hdrop,
      fun hex => hJ (exited_of_mem_set (fun hc => WStatus.noConfusion hc) hex)⟩
  | finishHeavy i u panicked hget =>
    exact ⟨inv_step cfg (Step.finishHeavy s i u panicked hget) hi, hcanc, hdrop,
      fun hex => hJ (exited_of_mem_set (fun hc => WStatus.noConfusion hc) hex)⟩
  | release i hget =>
    exact ⟨inv_step cfg (Step.release s i hget) hi, hcanc, hdrop,
      fun hex => hJ (exited_of_mem_set (fun hc => WStatus.noConfusion hc) hex)⟩
  | finishNormal i u panicked hget =>
    exact ⟨inv_step cfg (Step.finishNormal s i u panicked hget) hi, hcanc, hdrop,
      fun hex => hJ (exited_of_mem_set (fun hc => WStatus.noConfusion hc) hex)⟩
  | send i hget hlt =>
    exact ⟨inv_step cfg (Step.send s i hget hlt) hi, hcanc, hdrop,
      fun hex => hJ (exited_of_mem_set (fun hc => WStatus.noConfusion hc) hex)⟩
  | dropResult i hget hc =>
    rw [hcanc] at hc
    exact Bool.noConfusion hc
  | recv hlt =>
    exact ⟨inv_step cfg (Step.recv s hlt) hi, hcanc, hdrop, hJ⟩

theorem invNC_reaches (cfg : Cfg) {s : Pool}
    (h : ReachesNC cfg (init cfg) s) : InvNC cfg s := by
  induction h with
  | refl => exact init_invNC cfg
  | tail hab hbc ih =>
    obtain ⟨l, hl, hstep⟩ := hbc
    exact invNC_step cfg hl hstep ih

end WP

/-! ## C2: the heavy-task concurrency ceiling is never exceeded -/

/-- C2.  In every execution of the pool from its start state, at no
reachable state do more than `maxLong` heavy task bodies (URLs with a
xunlei or yd prefix) run concurrently: a worker acquires a semaphore slot
before invoking the body of a heavy task and receives it back only after
the body has returned — which it always does, `executeTask` recovering
panics — so the workers holding slots bound the workers running heavy
bodies, and the semaphore capacity bounds the holders. -/
theorem heavy_ceiling (cfg : WP.Cfg) (s : WP.Pool)
    (h : WP.Reaches cfg (WP.init cfg) s) :
    WP.heavyRunning s ≤ cfg.maxLong := by
  obtain ⟨hlen, hsem, hbound, hcount⟩ := WP.inv_reaches cfg h
  have hmono : s.ws.countP WP.isHeavyRunning ≤ s.ws.countP WP.isHeavyHolder := by
    apply List.countP_mono_left
    intro w hw hpw
    cases w <;> simp_all [WP.isHeavyRunning, WP.isHeavyHolder]
  unfold WP.heavyRunning
  omega

/-- Witness for C2: an explicit trace of `demoCfg` (one worker, ceiling 1)
that submits a xunlei URL, claims it, acquires the semaphore and starts
the heavy body; the bound holds at the resulting state. -/
theorem heavy_ceiling_witness :
    WP.heavyRunning
      { queue := [], qcap := 10000, qclosed := false, resBuf := 0, rcap := 100,
        rclosed := false, cancelled := false, sem := 1,
        ws := [WP.WStatus.runHeavy "https://pan.xunlei.com/s/1"],
        delivered := 0, dropped := 0, submitted := 1 } ≤ 1 := by
  refine heavy_ceiling WP.demoCfg _ ?_
  refine Relation.ReflTransGen.tail (Relation.ReflTransGen.tail
    (Relation.ReflTransGen.tail (Relation.ReflTransGen.tail
      Relation.ReflTransGen.refl
      ⟨WP.Label.submit ⟨"https://pan.xunlei.com/s/1"⟩,
        WP.Step.submit _ _ rfl (by decide)⟩)
      ⟨WP.Label.take 0, WP.Step.take _ 0 ⟨"https://pan.xunlei.com/s/1"⟩ [] rfl rfl⟩)
      ⟨WP.Label.acquire 0,
        WP.Step.acquire _ 0 "https://pan.xunlei.com/s/1" rfl (by decide) (by decide)⟩)
      ⟨WP.Label.beginHeavy 0, WP.Step.beginHeavy _ 0 "https://pan.xunlei.com/s/1" rfl⟩

/-! ## C7: results never outnumber accepted tasks; Wait() balances them -/

/-- C7.  Along every execution, the number of results delivered on the
result channel never exceeds the number of tasks `Submit` accepted; and in
a cancellation-free (`Wait()`-style) shutdown of a pool with at least one
worker — the queue closed and every worker exited — the two numbers are
exactly equal, since nothing was dropped and the workers drained the
queue before exiting. -/
theorem results_conservation (cfg : WP.Cfg) :
    (∀ s : WP.Pool, WP.Reaches cfg (WP.init cfg) s →
      s.delivered ≤ s.submitted) ∧
    (∀ s : WP.Pool, 0 < cfg.workers →
      WP.ReachesNC cfg (WP.init cfg) s →
      (∀ w ∈ s.ws, w = WP.WStatus.exited) →
      s.delivered = s.submitted) := by
  constructor
  · intro s h
    obtain ⟨hlen, hsem, hbound, hcount⟩ := WP.inv_reaches cfg h
    omega
  · intro s hw h hall
    obtain ⟨⟨hlen, hsem, hbound, hcount⟩, hcanc, hdrop, hJ⟩ :=
      WP.invNC_reaches cfg h
    have hne : s.ws ≠ [] := by
      intro h0
      rw [h0] at hlen
      simp at hlen
      omega
    obtain ⟨w, hwmem⟩ := List.exists_mem_of_ne_nil s.ws hne
    have hqueue : s.queue = [] := (hJ ⟨w, hwmem, hall w hwmem⟩).2
    have hbusy : s.ws.countP WP.isBusy = 0 := by
      rw [List.countP_eq_zero]
      intro a ha
      rw [hall a ha]
      decide
    rw [hqueue] at hcount
    simp only [List.length_nil] at hcount
    omega

/-- Witness for C7: an explicit cancellation-free trace of `demoCfg` whose
single worker exits after the queue is closed empty; delivered equals
submitted there (and the inequality is instantiated at the same state). -/
theorem results_conservation_witness :
    ({ queue := [], qcap := 10000, qclosed := true, resBuf := 0, rcap := 100,
       rclosed := false, cancelled := false, sem := 0,
       ws := [WP.WStatus.exited], delivered := 0, dropped := 0,
       submitted := 0 } : WP.Pool).delivered =
    ({ queue := [], qcap := 10000, qclosed := true, resBuf := 0, rcap := 100,
       rclosed := false, cancelled := false, sem := 0,
       ws := [WP.WStatus.exited], delivered := 0, dropped := 0,
       submitted := 0 } : WP.Pool).submitted := by
  refine (results_conservation WP.demoCfg).2 _ (by decide) ?_ (by decide)
  refine Relation.ReflTransGen.tail (Relation.ReflTransGen.tail
    Relation.ReflTransGen.refl
    ⟨WP.Label.closeQ, by decide, WP.Step.closeQ _ rfl⟩)
    ⟨WP.Label.exitClosed 0, by decide, WP.Step.exitClosed _ 0 rfl rfl rfl⟩


/-! ## Lemmas for the retry loop -/

namespace HttpC

theorem map_range_succ_shift (f : Nat → Nat) (n : Nat) :
    (List.range (n+1)).map f = f 0 :: (List.range n).map (fun i => f (i+1)) := by
  rw [List.range_succ_eq_map, List.map_cons, List.map_map]
  rfl

theorem doLoop_success (ri : Nat) (tr : Nat → DoOutcome) (st : Nat)
    (hst : ¬(500 ≤ st ∧ st < 600)) :
    ∀ (k fuel a t : Nat) (le : Option LastErr), 1 ≤ a → k < fuel →
      (∀ j, j < k → failsAttempt (tr (a + j))) →
      tr (a + k) = .resp st →
      doLoop ri (fun _ => false) tr fuel a t le =
        ⟨.success (a + k) st, k + 1,
          (List.range (k+1)).map (fun i => ri * (a + i))⟩ := by
  intro k
  induction k with
  | zero =>
    intro fuel a t le ha hfuel hfail htr
    cases fuel with
    | zero => omega
    | succ f =>
      rw [Nat.add_zero] at htr
      have hane : (a != 0) = true := by simp; omega
      simp only [doLoop, hane, Bool.true_and, Bool.and_false, htr,
        if_neg hst, if_false, Bool.false_eq_true, if_true]
      simp [List.range_succ]
  | succ k ih =>
    intro fuel a t le ha hfuel hfail htr
    cases fuel with
    | zero => omega
    | succ f =>
      have hane : (a != 0) = true := by simp; omega
      have h0 := hfail 0 (Nat.succ_pos k)
      rw [Nat.add_zero] at h0
      have hshift : ∀ j, j < k → failsAttempt (tr (a + 1 + j)) := by
        intro j hj
        have hx := hfail (j+1) (by omega)
        rwa [show a + (j+1) = a + 1 + j from by omega] at hx
      have htr1 : tr (a + 1 + k) = .resp st := by
        rwa [show a + 1 + k = a + (k+1) from by omega]
      have hfun : (fun i => ri * (a + (i+1))) = (fun i => ri * (a + 1 + i)) :=
        funext (fun i => congrArg (fun x => ri * x) (by omega))
      have hws : [ri * a] ++ (List.range (k+1)).map (fun i => ri * (a + 1 + i)) =
          (List.range (k+1+1)).map (fun i => ri * (a + i)) := by
        rw [map_range_succ_shift (fun i => ri * (a + i)) (k+1)]
        rw [List.singleton_append, hfun]
        simp
      rcases h0 with ⟨st2, hst2, h5⟩ | ⟨n, tmo, hfl⟩
      · have hrec := ih f (a+1) (t+1) (some (.respErr st2)) (by omega) (by omega)
          hshift htr1
        simp only [doLoop, hane, Bool.true_and, Bool.and_false, hst2,
          if_pos h5, if_false, Bool.false_eq_true, if_true, hrec]
        rw [show a + 1 + k = a + (k+1) from by omega, hws]
      · have hrec := ih f (a+1) (t+2) (some (.transport n tmo)) (by omega) (by omega)
          hshift htr1
        simp only [doLoop, hane, Bool.true_and, Bool.and_false, hfl,
          if_false, Bool.false_eq_true, if_true, hrec]
        rw [show a + 1 + k = a + (k+1) from by omega, hws]

theorem doLoop_cancel (ri : Nat) (ctx : Nat → Bool) (tr : Nat → DoOutcome) :
    ∀ (m fuel a t : Nat) (le : Option LastErr), 1 ≤ a → m < fuel →
      (∀ i, i < m → ∃ n tmo, tr (a + i) = .fail n tmo) →
      (∀ i, i < 2*m → ctx (t + i) = false) →
      ctx (t + 2*m) = true →
      doLoop ri ctx tr fuel a t le =
        ⟨.ctxCancelled, m, (List.range m).map (fun i => ri * (a + i))⟩ := by
  intro m
  induction m with
  | zero =>
    intro fuel a t le ha hfuel hfail hfalse htrue
    cases fuel with
    | zero => omega
    | succ f =>
      rw [Nat.mul_zero, Nat.add_zero] at htrue
      have hane : (a != 0) = true := by simp; omega
      simp only [doLoop, hane, htrue, Bool.and_self, if_true, Bool.true_and]
      simp
  | succ m ih =>
    intro fuel a t le ha hfuel hfail hfalse htrue
    cases fuel with
    | zero => omega
    | succ f =>
      have hane : (a != 0) = true := by simp; omega
      have hc0 : ctx t = false := by
        have hx := hfalse 0 (by omega)
        rwa [Nat.add_zero] at hx
      obtain ⟨n, tmo, hfl⟩ := hfail 0 (Nat.succ_pos m)
      rw [Nat.add_zero] at hfl
      have hc1 : ctx (t + 1) = false := hfalse 1 (by omega)
      have hshift : ∀ i, i < m → ∃ n2 tmo2, tr (a + 1 + i) = .fail n2 tmo2 := by
        intro i hi
        have hx := hfail (i+1) (by omega)
        rwa [show a + (i+1) = a + 1 + i from by omega] at hx
      have hfalse2 : ∀ i, i < 2*m → ctx (t + 2 + i) = false := by
        intro i hi
        have hx := hfalse (i+2) (by omega)
        rwa [show t + (i+2) = t + 2 + i from by omega] at hx
      have htrue2 : ctx (t + 2 + 2*m) = true := by
        rwa [show t + 2*(m+1) = t + 2 + 2*m from by omega] at htrue
      have hrec := ih f (a+1) (t+2) (some (.transport n tmo)) (by omega) (by omega)
        hshift hfalse2 htrue2
      have hfun : (fun i => ri * (a + (i+1))) = (fun i => ri * (a + 1 + i)) :=
        funext (fun i => congrArg (fun x => ri * x) (by omega))
      have hws : [ri * a] ++ (List.range m).map (fun i => ri * (a + 1 + i)) =
          (List.range (m+1)).map (fun i => ri * (a + i)) := by
        rw [map_range_succ_shift (fun i => ri * (a + i)) m]
        rw [List.singleton_append, hfun]
        simp
      simp only [doLoop, hane, hc0, hc1, Bool.and_false, if_false,
        Bool.false_eq_true, if_true, hfl, hrec]
      rw [hws]

theorem chain_le_waits (ri k : Nat) :
    List.Chain' (fun x y => x ≤ y) ((List.range k).map (fun i => ri * (i+1))) := by
  apply List.Pairwise.chain'
  refine List.Pairwise.map _ ?_ (List.pairwise_lt_range k)
  intro a b hab
  exact Nat.mul_le_mul_left ri (by omega)

end HttpC

/-! ## C3: retry count, backoff monotonicity, cancellation during backoff -/

/-- C3.  First conjunct: with a never-cancelled context and a transport
failing the first `k < maxRetries` attempts (transport error or 5xx) and
succeeding on attempt `k+1`, `DoWithRetry` returns that success having
performed exactly `k+1` attempts, the backoff waited before retry number
`a` is `retryInterval * a`, and these delays are monotonically
non-decreasing.  Second conjunct: when the context becomes cancelled
during the backoff wait preceding attempt `j` (transport errors before
that), the wait is aborted and the context's error is returned after the
`j` attempts already made. -/
theorem doWithRetry_retry_spec :
    (∀ (cfgC ri : Nat) (tr : Nat → HttpC.DoOutcome) (k : Nat) (mr : Int)
        (st : Nat),
      (k : Int) < mr →
      (∀ j, j < k → HttpC.failsAttempt (tr j)) →
      tr k = .resp st → ¬(500 ≤ st ∧ st < 600) →
      HttpC.DoWithRetry cfgC ri (fun _ => false) tr mr =
        ⟨.success k st, k + 1, (List.range k).map (fun i => ri * (i+1))⟩ ∧
      List.Chain' (fun x y => x ≤ y)
        (HttpC.DoWithRetry cfgC ri (fun _ => false) tr mr).waits) ∧
    (∀ (cfgC ri : Nat) (tr : Nat → HttpC.DoOutcome) (j : Nat) (mr : Int),
      1 ≤ j → (j : Int) ≤ mr →
      (∀ i, i < j → ∃ n tmo, tr i = .fail n tmo) →
      (HttpC.DoWithRetry cfgC ri (fun u => decide (2*j - 1 ≤ u)) tr mr).ret =
        .ctxCancelled ∧
      (HttpC.DoWithRetry cfgC ri (fun u => decide (2*j - 1 ≤ u)) tr mr).attempts
        = j) := by
  constructor
  · intro cfgC ri tr k mr st hk hfail htr hst
    have hmr : ¬ (mr ≤ 0) := by omega
    have hmain : HttpC.DoWithRetry cfgC ri (fun _ => false) tr mr =
        ⟨.success k st, k + 1, (List.range k).map (fun i => ri * (i+1))⟩ := by
      unfold HttpC.DoWithRetry
      rw [if_neg hmr]
      cases k with
      | zero =>
        simp only [HttpC.doLoop, bne_self_eq_false, Bool.false_and, if_false,
          Bool.false_eq_true, if_true, htr, if_neg hst]
        simp
      | succ k2 =>
        have h0 := hfail 0 (Nat.succ_pos k2)
        have hshift : ∀ j, j < k2 → HttpC.failsAttempt (tr (1 + j)) := by
          intro j hj
          have hx := hfail (j+1) (by omega)
          rwa [show j + 1 = 1 + j from by omega] at hx
        have htr1 : tr (1 + k2) = .resp st := by
          rwa [show 1 + k2 = k2 + 1 from by omega]
        have hfun : (fun i => ri * (1 + i)) = (fun i => ri * (i+1)) :=
          funext (fun i => congrArg (fun x => ri * x) (by omega))
        have hws : ([] : List Nat) ++ (List.range (k2+1)).map
              (fun i => ri * (1 + i)) =
            (List.range (k2+1)).map (fun i => ri * (i+1)) := by
          rw [List.nil_append, hfun]
        rcases h0 with ⟨st2, hst2, h5⟩ | ⟨n, tmo, hfl⟩
        · have hrec := HttpC.doLoop_success ri tr st hst k2 mr.toNat 1 0
            (some (.respErr st2)) (Nat.le_refl 1) (by omega) hshift htr1
          simp only [HttpC.doLoop, bne_self_eq_false, Bool.false_and, if_false,
            Bool.false_eq_true, if_true, hst2, if_pos h5, hrec]
          rw [show (1 : Nat) + k2 = k2 + 1 from by omega, hws]
        · have hrec := HttpC.doLoop_success ri tr st hst k2 mr.toNat 1 1
            (some (.transport n tmo)) (Nat.le_refl 1) (by omega) hshift htr1
          simp only [HttpC.doLoop, bne_self_eq_false, Bool.false_and, if_false,
            Bool.false_eq_true, if_true, hfl, hrec]
          rw [show (1 : Nat) + k2 = k2 + 1 from by omega, hws]
    refine ⟨hmain, ?_⟩
    rw [hmain]
    exact HttpC.chain_le_waits ri k
  · intro cfgC ri tr j mr hj hjmr hfail
    have hmr : ¬ (mr ≤ 0) := by omega
    obtain ⟨n, tmo, h0⟩ := hfail 0 (by omega)
    have hc0 : (decide (2*j - 1 ≤ 0)) = false := by
      simp
      omega
    have hshift : ∀ i, i < j - 1 → ∃ n2 tmo2, tr (1 + i) = .fail n2 tmo2 := by
      intro i hi
      have hx := hfail (i+1) (by omega)
      rwa [show i + 1 = 1 + i from by omega] at hx
    have hfalse2 : ∀ i, i < 2*(j-1) →
        (decide (2*j - 1 ≤ 1 + i)) = false := by
      intro i hi
      simp
      omega
    have htrue2 : (decide (2*j - 1 ≤ 1 + 2*(j-1))) = true := by
      simp
      omega
    have hrec := HttpC.doLoop_cancel ri (fun u => decide (2*j - 1 ≤ u)) tr
      (j-1) mr.toNat 1 1 (some (.transport n tmo)) (Nat.le_refl 1) (by omega)
      hshift hfalse2 htrue2
    have hmain : HttpC.DoWithRetry cfgC ri (fun u => decide (2*j - 1 ≤ u)) tr mr =
        ⟨.ctxCancelled, (j-1) + 1,
          [] ++ (List.range (j-1)).map (fun i => ri * (1 + i))⟩ := by
      unfold HttpC.DoWithRetry
      rw [if_neg hmr]
      simp only [HttpC.doLoop, bne_self_eq_false, Bool.false_and, if_false,
        Bool.false_eq_true, if_true, h0, hc0, hrec]
    rw [hmain]
    refine ⟨rfl, ?_⟩
    show j - 1 + 1 = j
    omega

/-- Witness for C3: a transport failing twice then succeeding with 200,
`maxRetries = 3`, `retryInterval = 1000`: three attempts, delays
1000 then 2000; and with the context cancelled during the second backoff
wait, the call aborts with the context's error after two attempts. -/
theorem doWithRetry_retry_spec_witness :
    (HttpC.DoWithRetry 1 1000 (fun _ => false) HttpC.trDemo 3 =
      ⟨.success 2 200, 3, [1000, 2000]⟩ ∧
      List.Chain' (fun x y => x ≤ y)
        (HttpC.DoWithRetry 1 1000 (fun _ => false) HttpC.trDemo 3).waits) ∧
    ((HttpC.DoWithRetry 1 1000 (fun u => decide (2*2 - 1 ≤ u)) HttpC.trDemo 3).ret
        = .ctxCancelled ∧
     (HttpC.DoWithRetry 1 1000 (fun u => decide (2*2 - 1 ≤ u))
        HttpC.trDemo 3).attempts = 2) := by
  constructor
  · have h := doWithRetry_retry_spec.1 1 1000 HttpC.trDemo 2 3 200 (by decide)
      (by
        intro j hj
        right
        exact ⟨true, false, by simp [HttpC.trDemo, hj]⟩)
      (by decide) (by decide)
    exact ⟨by rw [h.1]; decide, h.2⟩
  · exact doWithRetry_retry_spec.2 1 1000 HttpC.trDemo 2 3 (by decide) (by decide)
      (by
        intro i hi
        exact ⟨true, false, by simp [HttpC.trDemo, hi]⟩)


/-! ## C8: the two-keyword rule of the xunlei violation classification -/

/-- Helper for C8: whenever `checkXunleiMain` returns the violation
verdict, at least two violation keywords occur in the content. -/
theorem xunleiMain_violation_count {dl : Bool} {err1 : Option String}
    {pc fn : String}
    (hres : Core.checkXunleiMain dl err1 pc fn =
      Utils.ErrorInvalid Core.violationMsg) :
    2 ≤ Core.keywordCount (Core.lowerStr pc) Core.violationKeywords := by
  unfold Core.checkXunleiMain at hres
  split at hres
  · split at hres
    · exact absurd hres (by decide)
    · have hE := congrArg Utils.Result.Error hres
      dsimp only [Utils.ErrorFatal, Utils.ErrorInvalid] at hE
      exact absurd hE (by decide)
  · split at hres
    · exact absurd hres (by decide)
    · split at hres
      · rename_i hguard
        exact hguard
      · split at hres
        · exact absurd hres (by decide)
        · split at hres
          · exact absurd hres (by decide)
          · split at hres
            · exact absurd hres (by decide)
            · split at hres
              · have hE := congrArg Utils.Result.Error hres
                dsimp only [Utils.ErrorValid, Utils.ErrorInvalid] at hE
                exact absurd hE (by decide)
              · exact absurd hres (by decide)

/-- C8 (counterexample).  The claim's "if" direction fails: this content
matches two violation keywords (色情, 反动), yet the checker classifies it
as expired, because the stage-one existence/expiry check ("已过期") runs
before the violation check. -/
theorem xunlei_violation_iff_cex :
    2 ≤ Core.keywordCount (Core.lowerStr "已过期 色情 反动")
        Core.violationKeywords ∧
    Core.checkXunleiClassify false none "已过期 色情 反动" "" ≠
      Utils.ErrorInvalid Core.violationMsg ∧
    Core.checkXunleiClassify false none "已过期 色情 反动" "" =
      Utils.ErrorInvalid "分享不存在或已过期" := by
  decide

/-- C8 (amended).  The violation verdict is returned only when at least
two distinct violation keywords occur — a single matching keyword never
triggers it; and at least two matching keywords do produce the violation
verdict provided none of the deletion or stage-one existence/expiry
keywords (which are checked first) occurs in the content. -/
theorem xunlei_violation_amended :
    (∀ (dl : Bool) (err1 : Option String) (pc fn : String),
      Core.checkXunleiClassify dl err1 pc fn =
        Utils.ErrorInvalid Core.violationMsg →
      2 ≤ Core.keywordCount (Core.lowerStr pc) Core.violationKeywords) ∧
    (∀ (dl : Bool) (err1 : Option String) (pc fn : String),
      2 ≤ Core.keywordCount (Core.lowerStr pc) Core.violationKeywords →
      goContains (Core.lowerStr pc) "作者删除" = false →
      goContains (Core.lowerStr pc) "分享已删除" = false →
      goContains (Core.lowerStr pc) "分享不存在" = false →
      goContains (Core.lowerStr pc) "已过期" = false →
      goContains (Core.lowerStr pc) "页面不存在" = false →
      Core.checkXunleiClassify dl err1 pc fn =
        Utils.ErrorInvalid Core.violationMsg) := by
  constructor
  · intro dl err1 pc fn hres
    unfold Core.checkXunleiClassify at hres
    split at hres
    · split at hres
      · exact absurd hres (by decide)
      · split at hres
        · exact absurd hres (by decide)
        · split at hres
          · rename_i hguard
            exact hguard
          · exact xunleiMain_violation_count hres
    · exact xunleiMain_violation_count hres
  · intro dl err1 pc fn hcount h1 h2 h3 h4 h5
    have hpc : pc ≠ "" := by
      intro h0
      subst h0
      exact absurd hcount (by decide)
    unfold Core.checkXunleiClassify
    rw [if_pos hpc]
    simp [h1, h2, h3, h4, h5, hcount]

/-- Witness for C8 (amended) at concrete content with exactly the two
keywords 色情 and 反动 and no deletion or expiry keyword. -/
theorem xunlei_violation_amended_witness :
    Core.checkXunleiClassify false none "内容 色情 反动" "" =
      Utils.ErrorInvalid Core.violationMsg :=
  xunlei_violation_amended.2 false none "内容 色情 反动" "" (by decide)
    (by decide) (by decide) (by decide) (by decide) (by decide)


end ShareSniffer
